import Mathlib

/-!
# A verification development for the r55 RISC-V / EVM interpreter bridge

This file gives a shallow embedding, in Lean 4, of the parts of the r55
repository that the specification claims talk about:

* the syscall catalog (crate eth-riscv-syscalls, src/lib.rs);
* the revm gas counter as used by the bridge (record_cost / spent semantics);
* the per-instruction-class gas model (r55_gas_used, src/r55/src/exec.rs);
* the ELF loader (setup_from_elf / load_sections,
  src/eth-riscv-interpreter/src/lib.rs);
* the deployment init-code codec (deploy_contract in src/r55/src/exec.rs and
  the create branch of riscv_context in the same file);
* the syscall dispatcher (execute_riscv / execute_call / dram_slice,
  src/r55/src/exec.rs) reacting to a single emulator halt;
* the address packing of the Caller/Origin arms and the matching unpacking
  done by the contract-side runtime (msg_sender in
  src/eth-riscv-runtime/src/lib.rs).

Machine integers are modelled as Nat, with an explicit `% 2 ^ 64` exactly
where u64 wrap-around matters (the calibration subtraction in r55_gas_used).
Rust fallibility is modelled explicitly: functions that can panic or
propagate an error in Rust return a result type with distinguished
constructors for those outcomes.
-/

set_option autoImplicit false

namespace R55

/-- 2 ^ 64, the modulus of the u64 arithmetic used by the bridge. -/
def U64MOD : Nat := 2 ^ 64

/-- u64 wrapping subtraction (release-mode semantics of `a - b` on u64),
for `b < 2 ^ 64`. -/
def wsub64 (a b : Nat) : Nat := (a + (U64MOD - b)) % U64MOD

/-- Case analysis on an `Option`, used instead of a `match` wherever the
scrutinee is a computed value (the two shapes are definitionally equal). -/
def optionElim {α γ : Type _} (o : Option α) (fnone : γ) (fsome : α → γ) :
    γ :=
  match o with
  | none => fnone
  | some a => fsome a

/-- Case analysis on an `Except`, used instead of a `match` wherever the
scrutinee is a computed value (the two shapes are definitionally equal). -/
def exceptElim {ε α γ : Type _} (e : Except ε α) (ferr : ε → γ)
    (fok : α → γ) : γ :=
  match e with
  | .error a => ferr a
  | .ok a => fok a

/-- Case analysis on a `List`, used instead of a `match` wherever the
scrutinee is a computed value. -/
def listElim {α γ : Type _} (l : List α) (fnil : γ)
    (fcons : α → List α → γ) : γ :=
  match l with
  | [] => fnil
  | a :: t => fcons a t

/-! ## The syscall catalog (eth-riscv-syscalls/src/lib.rs, lines 77-101) -/

/-- The closed `Syscall` enumeration generated by the `syscalls!` macro in
eth-riscv-syscalls/src/lib.rs. -/
inductive Syscall where
  | Keccak256
  | Origin
  | Caller
  | CallValue
  | GasPrice
  | ReturnDataSize
  | ReturnDataCopy
  | Timestamp
  | Number
  | GasLimit
  | ChainId
  | BaseFee
  | SLoad
  | SStore
  | Create
  | Call
  | StaticCall
  | Return
  | Revert
  | Log
  | ReturnCreateAddress
  deriving DecidableEq, Repr

/-- Numeric opcode of each syscall, as listed in the `syscalls!` invocation. -/
def Syscall.toByte : Syscall → Nat
  | .Keccak256 => 0x20
  | .Origin => 0x32
  | .Caller => 0x33
  | .CallValue => 0x34
  | .GasPrice => 0x3A
  | .ReturnDataSize => 0x3D
  | .ReturnDataCopy => 0x3E
  | .Timestamp => 0x42
  | .Number => 0x43
  | .GasLimit => 0x45
  | .ChainId => 0x46
  | .BaseFee => 0x48
  | .SLoad => 0x54
  | .SStore => 0x55
  | .Create => 0xf0
  | .Call => 0xf1
  | .StaticCall => 0xfa
  | .Return => 0xf3
  | .Revert => 0xfd
  | .Log => 0xA0
  | .ReturnCreateAddress => 0x01

/-- `Syscall::try_from(value: u8)`: the fallible numeric-to-enum conversion
generated by the `syscalls!` macro.  Unknown codes are an error (here:
`none`), never silently another syscall. -/
def syscallFromByte (n : Nat) : Option Syscall :=
  match n with
  | 0x20 => some .Keccak256
  | 0x32 => some .Origin
  | 0x33 => some .Caller
  | 0x34 => some .CallValue
  | 0x3A => some .GasPrice
  | 0x3D => some .ReturnDataSize
  | 0x3E => some .ReturnDataCopy
  | 0x42 => some .Timestamp
  | 0x43 => some .Number
  | 0x45 => some .GasLimit
  | 0x46 => some .ChainId
  | 0x48 => some .BaseFee
  | 0x54 => some .SLoad
  | 0x55 => some .SStore
  | 0xf0 => some .Create
  | 0xf1 => some .Call
  | 0xfa => some .StaticCall
  | 0xf3 => some .Return
  | 0xfd => some .Revert
  | 0xA0 => some .Log
  | 0x01 => some .ReturnCreateAddress
  | _ => none

/-! ## The revm gas counter, as consumed by the bridge

The bridge manipulates revm`s `Gas` through `record_cost`, `spent`,
`remaining` and `limit` only (see syscall_gas! in src/r55/src/gas.rs and
return_revert in src/r55/src/exec.rs).  revm`s `Gas` keeps a limit and a
remaining counter; `spent` is `limit - remaining`; `record_cost(cost)`
subtracts from `remaining` and reports `false` (leaving the counter
unchanged) when `cost` exceeds `remaining`. -/

structure Gas where
  limit : Nat
  remaining : Nat
  deriving DecidableEq, Repr

/-- `Gas::spent`. -/
def Gas.spent (g : Gas) : Nat := g.limit - g.remaining

/-- `Gas::record_cost`: returns whether the charge fitted, and the updated
counter (unchanged on failure). -/
def Gas.record_cost (g : Gas) (cost : Nat) : Bool × Gas :=
  if cost ≤ g.remaining then (true, ⟨g.limit, g.remaining - cost⟩) else (false, g)

/-! ## The per-instruction-class gas model (r55_gas_used, exec.rs 619-648) -/

/-- `str::starts_with` on the character sequence (agrees with
`String.startsWith`; spelled structurally so that it evaluates inside the
kernel). -/
def startsWithChars (s p : String) : Bool := p.data.isPrefixOf s.data

/-- Cost of `count` executions of the mnemonic `inst_name`, following the
match in `r55_gas_used`: division/remainder 25x, multiplication 5x, loads,
stores and branches/jumps 3x, everything else 1x. -/
def instCost (inst_name : String) (count : Nat) : Nat :=
  if startsWithChars inst_name "div" || startsWithChars inst_name "rem" then
    count * 25
  else if startsWithChars inst_name "mul" then count * 5
  else if inst_name = "lb" || inst_name = "lh" || inst_name = "lw" ||
      inst_name = "ld" || inst_name = "lbu" || inst_name = "lhu" ||
      inst_name = "lwu" then count * 3
  else if inst_name = "sb" || inst_name = "sh" || inst_name = "sw" ||
      inst_name = "sd" || inst_name = "sc.w" || inst_name = "sc.d" then count * 3
  else if inst_name = "beq" || inst_name = "bne" || inst_name = "blt" ||
      inst_name = "bge" || inst_name = "bltu" || inst_name = "bgeu" ||
      inst_name = "jal" || inst_name = "jalr" then count * 3
  else count

/-- The instruction counter of the emulator (`emu.cpu.inst_counter`, a
`BTreeMap<String, u64>`), modelled as an association list of
(mnemonic, count) entries. -/
abbrev InstCounter := List (String × Nat)

/-- The summed weighted cost over the whole counter (the `.map(..).sum()` in
`r55_gas_used`). -/
def totalInstCost (inst_count : InstCounter) : Nat :=
  (inst_count.map (fun p => instCost p.1 p.2)).sum

/-- The fixed calibration constant of `r55_gas_used`: the minimum gas used to
ABI-decode empty calldata. -/
def ABI_DECODE_COST : Nat := 9175538

/-- `r55_gas_used` (src/r55/src/exec.rs lines 619-648): the weighted
instruction tally minus the calibration constant.  The subtraction is u64
subtraction, so it wraps around below the constant (release semantics);
products and the sum are kept as Nat because a u64 instruction counter cannot
reach 2 ^ 64 / 25 executed instructions within any gas budget. -/
def r55_gas_used (inst_count : InstCounter) : Nat :=
  wsub64 (totalInstCost inst_count) ABI_DECODE_COST

/-! ## Byte buffers

The emulator memory image and all byte strings are modelled as `List Nat`
(each entry a byte value).  `byteAt` is out-of-range-tolerant readback
(missing positions read as 0, matching a zero-initialized, growable buffer);
`writeBytes` models `buf[start..start+data.len()].copy_from_slice(data)` and
coincides with it whenever the Rust call is in bounds (the only situations in
which the source performs it); `resizeTo` models `Vec::resize(n, 0)` when
growing, which is the only direction the source uses it in. -/

/-- Read one byte of a buffer, 0 beyond the end. -/
def byteAt (mem : List Nat) (i : Nat) : Nat := mem.getD i 0

/-- Overwrite `data.length` bytes of `mem` starting at `start`
(`copy_from_slice` on the subslice). -/
def writeBytes (mem : List Nat) (start : Nat) (data : List Nat) : List Nat :=
  mem.take start ++ data ++ mem.drop (start + data.length)

/-- Grow a buffer with zero padding to length `n` (`Vec::resize(n, 0)` with
`n` at least the current length). -/
def resizeTo (mem : List Nat) (n : Nat) : List Nat :=
  if mem.length < n then mem ++ List.replicate (n - mem.length) 0 else mem

/-! ## The ELF loader (eth-riscv-interpreter/src/lib.rs)

`DRAM_BASE` and `DRAM_SIZE` come from the external rvemu emulator crate
(rvemu::bus::DRAM_BASE and rvemu::dram::DRAM_SIZE): RAM is `DRAM_SIZE` bytes
starting at address `DRAM_BASE` (0x8000_0000, which is also the
CALLDATA_ADDRESS of eth-riscv-runtime/src/lib.rs). -/

def DRAM_BASE : Nat := 0x80000000

def DRAM_SIZE : Nat := 1024 * 1024 * 128

/-- `goblin::elf::program_header::PT_LOAD`. -/
def PT_LOAD : Nat := 1

/-- One ELF program header, with the fields `load_sections` reads. -/
structure ProgHeader where
  p_type : Nat
  p_vaddr : Nat
  p_offset : Nat
  p_filesz : Nat
  p_memsz : Nat
  deriving DecidableEq, Repr

/-- A parsed ELF image (the result of `goblin::elf::Elf::parse`), with the
fields `setup_from_elf` and `load_sections` consume.  The parse step itself
belongs to the external goblin crate; parse failures are returned as errors
by `setup_from_elf` and are not modelled here. -/
structure Elf where
  programHeaders : List ProgHeader
  e_entry : Nat
  deriving DecidableEq, Repr

/-- The body of the `PT_LOAD` branch of `load_sections` once its two
assertions have passed: grow the buffer to `start_vec + p_memsz` if needed,
then copy the `p_filesz` file-backed bytes of the segment to
`p_vaddr - DRAM_BASE`. -/
def loadSegmentCore (elf_data mem : List Nat) (ph : ProgHeader) : List Nat :=
  let start_vec := ph.p_vaddr - DRAM_BASE
  let end_vec := start_vec + ph.p_memsz
  let mem1 := resizeTo mem end_vec
  writeBytes mem1 start_vec ((elf_data.drop ph.p_offset).take ph.p_filesz)

/-- One iteration of the `load_sections` loop: skip non-PT_LOAD headers,
panic (`none`) if one of the two `assert!` statements fails
(`p_vaddr >= DRAM_BASE`, `p_memsz <= DRAM_SIZE`), and otherwise place the
segment. -/
def loadSectionsStep (elf_data : List Nat) (acc : Option (List Nat))
    (ph : ProgHeader) : Option (List Nat) :=
  match acc with
  | none => none
  | some m =>
    if ph.p_type = PT_LOAD then
      if DRAM_BASE ≤ ph.p_vaddr ∧ ph.p_memsz ≤ DRAM_SIZE then
        some (loadSegmentCore elf_data m ph)
      else none
    else some m

/-- `load_sections` (eth-riscv-interpreter/src/lib.rs lines 29-50).  The two
`assert!` statements are Rust panics, modelled as `none`. -/
def load_sections (elf_data : List Nat) (mem : List Nat)
    (phs : List ProgHeader) : Option (List Nat) :=
  phs.foldl (loadSectionsStep elf_data) (some mem)

/-- Buffer offset of a program header (`p_vaddr - DRAM_BASE`). -/
def segStart (ph : ProgHeader) : Nat := ph.p_vaddr - DRAM_BASE

/-- Well-formedness of one loadable segment relative to the ELF file bytes:
within DRAM bounds (the two loader assertions), file-backed size within the
in-memory size, and the file-backed bytes actually present in the file. -/
def SegOk (elf_data : List Nat) (ph : ProgHeader) : Prop :=
  DRAM_BASE ≤ ph.p_vaddr ∧ ph.p_memsz ≤ DRAM_SIZE ∧
    ph.p_filesz ≤ ph.p_memsz ∧ ph.p_offset + ph.p_filesz ≤ elf_data.length

/-- Two loadable segments occupy disjoint regions of the memory buffer. -/
def DisjLoad (ph ph1 : ProgHeader) : Prop :=
  ph.p_type = PT_LOAD → ph1.p_type = PT_LOAD →
    segStart ph + ph.p_memsz ≤ segStart ph1 ∨
      segStart ph1 + ph1.p_memsz ≤ segStart ph

/-- Little-endian 8-byte encoding of a u64 (`u64::to_le_bytes`). -/
def toLe8 (n : Nat) : List Nat :=
  [n % 256, n / 256 % 256, n / 256 ^ 2 % 256, n / 256 ^ 3 % 256,
   n / 256 ^ 4 % 256, n / 256 ^ 5 % 256, n / 256 ^ 6 % 256, n / 256 ^ 7 % 256]

/-- Result of the loader: either a ready memory image and program counter, or
a Rust panic (failed `assert!`).  Errors of the external goblin ELF parser,
which `setup_from_elf` does return as errors, happen before this point and
are outside the model. -/
inductive SetupOutcome where
  | ok (mem : List Nat) (pc : Nat)
  | panicRaised
  deriving Repr

/-- `setup_from_elf` (eth-riscv-interpreter/src/lib.rs lines 6-27), after ELF
parsing: allocate a 1 MiB zero buffer, assert the calldata fits, write the
8-byte little-endian calldata length then the calldata at the buffer start,
load the segments, and keep the ELF entry point as initial pc. -/
def setup_from_elf (elf : Elf) (elf_data call_data : List Nat) : SetupOutcome :=
  if call_data.length < 1024 * 1024 - 8 then
    optionElim
      (load_sections elf_data
        (writeBytes (writeBytes (List.replicate (1024 * 1024) 0) 0
          (toLe8 call_data.length)) 8 call_data)
        elf.programHeaders)
      .panicRaised (fun m => .ok m elf.e_entry)
  else .panicRaised

/-! ## The deployment init-code codec -/

/-- Big-endian 4-byte encoding of a u32 (`U32::to_be_bytes`). -/
def be4 (n : Nat) : List Nat :=
  [n / 256 ^ 3 % 256, n / 256 ^ 2 % 256, n / 256 % 256, n % 256]

/-- Value of a big-endian byte string (`U32::from_be_slice` on 4 bytes,
`u64::from_be_bytes` on 8 bytes). -/
def beVal (l : List Nat) : Nat := l.foldl (fun acc b => acc * 256 + b) 0

/-- The encoder: the R55 branch of `deploy_contract` (src/r55/src/exec.rs
lines 29-43).  Given the compiled blob `bytecode` (whose first byte is the
0xFF marker) and the ABI-encoded constructor args, the init code is
`[0xFF][codesize as u32 BE][bytecode][args]` with `codesize` the length of
the whole marker-prefixed blob. -/
def craft_initcode (bytecode args : List Nat) : List Nat :=
  0xFF :: (be4 bytecode.length ++ bytecode ++ args)

/-- The padding revm applies when analyzing raw bytecode: a create frame`s
`interpreter.bytecode` is the init code followed by 33 zero bytes (external
revm behaviour; the comment in riscv_context speaks of an appended empty
32-byte word, and the arithmetic below deducts 34 = 1 marker byte + 33 pad
bytes). -/
def revmPadded (code : List Nat) : List Nat := code ++ List.replicate 33 0

/-- The decoder: the create branch of `riscv_context` (src/r55/src/exec.rs
lines 132-163) splitting a create frame`s (revm-padded) bytecode into the
ELF code slice and the constructor-args slice.  `none` models the two
`return None` paths (missing 0xFF markers).  The slices are takes/drops of
the byte list, which agree with Rust slicing for in-range indices (how the
round-trip exercises them). -/
def riscv_context_create (framed : List Nat) : Option (List Nat × List Nat) :=
  listElim framed none (fun marker rest =>
    if marker = 0xFF then
      let code_size_bytes := rest.take 4
      let init_code := rest.drop 4
      listElim init_code none (fun marker2 bytecode =>
        if marker2 = 0xFF then
          let code_size := beVal code_size_bytes - 1
          let end_of_args := init_code.length - 34
          some (bytecode.take code_size,
            (bytecode.drop code_size).take (end_of_args - code_size))
        else none)
    else none)

/-! ## The syscall dispatcher (execute_riscv and helpers, src/r55/src/exec.rs)

The dispatcher is modelled as the reaction of `execute_riscv` to a single
emulator halt: either an ecall trap (`Err(EnvironmentCallFromMMode)` from
`emu.start()`, handled by `handleEcall`) or any other fault (the final
`Err(e)` arm, handled by `handleFault`).  The emulator itself (rvemu) is an
external dependency; its registers, DRAM and instruction counter appear as
the `EmuState` the dispatcher reads and writes. -/

/-- 256-bit values as four 64-bit limbs, least significant limb first
(`U256::from_limbs` / `as_limbs`). -/
abbrev U256L := Nat × Nat × Nat × Nat

/-- The emulator state the dispatcher touches: integer registers, DRAM
contents (bytes, index 0 at address `DRAM_BASE`), and the executed
instruction counter. -/
structure EmuState where
  regs : Nat → Nat
  dram : List Nat
  instCounter : InstCounter

/-- Write one integer register (`emu.cpu.xregs.write`). -/
def writeReg (rs : Nat → Nat) (i v : Nat) : Nat → Nat :=
  fun j => if j = i then v else rs j

/-- Write a 256-bit value limb by limb into registers a0-a3
(x10-x13), as every 256-bit-returning arm does. -/
def writeU256 (rs : Nat → Nat) (v : U256L) : Nat → Nat :=
  writeReg (writeReg (writeReg (writeReg rs 10 v.1) 11 v.2.1) 12 v.2.2.1)
    13 v.2.2.2

/-- The parts of revm`s `Interpreter` the dispatcher reads or writes. -/
structure InterpState where
  gas : Gas
  returnDataBuffer : List Nat
  callerAddr : List Nat
  targetAddr : List Nat
  callValue : U256L

/-- The host engine (revm `Host`) as a read-only oracle: storage and account
lookups (fallible, as in the source), the environment accessors, and the
external Keccak-256 function of the alloy crate. -/
structure HostModel where
  sload : List Nat → U256L → Option (U256L × Bool)
  sstore : List Nat → U256L → U256L → Option Bool
  loadAccountDelegated : List Nat → Option Bool
  keccak : List Nat → U256L
  block_basefee : U256L
  block_gas_limit : U256L
  block_number : U256L
  block_timestamp : U256L
  tx_gas_price : U256L
  chain_id : Nat
  tx_origin : List Nat

/-- `get_dram_slice(start..start+len)` of the rvemu fork, reading: the range
must lie inside `[DRAM_BASE, DRAM_BASE + dram.len())`, otherwise the call
returns an exception (here `none`). -/
def dramRead (emu : EmuState) (start len : Nat) : Option (List Nat) :=
  if DRAM_BASE ≤ start ∧ start + len ≤ DRAM_BASE + emu.dram.length then
    some ((emu.dram.drop (start - DRAM_BASE)).take len)
  else none

/-- `get_dram_slice` for writing followed by `copy_from_slice`. -/
def dramWrite (emu : EmuState) (start : Nat) (data : List Nat) :
    Option EmuState :=
  if DRAM_BASE ≤ start ∧ start + data.length ≤ DRAM_BASE + emu.dram.length then
    some { emu with dram := writeBytes emu.dram (start - DRAM_BASE) data }
  else none

/-- `dram_slice` (src/r55/src/exec.rs lines 607-617): zero-size reads yield
an empty slice without touching the bus; other reads propagate the bus
exception with `?`. -/
def dram_slice (emu : EmuState) (ret_offset ret_size : Nat) :
    Option (List Nat) :=
  if ret_size ≠ 0 then dramRead emu ret_offset ret_size else some []

/-- Terminal interpreter results (`InstructionResult` restricted to the three
outcomes the bridge produces). -/
inductive RKind where
  | Return
  | Revert
  | OutOfGas
  deriving DecidableEq, Repr

/-- revm `InterpreterResult`: outcome kind, output bytes, gas counter. -/
structure InterpreterResult where
  result : RKind
  output : List Nat
  gas : Gas
  deriving DecidableEq, Repr

/-- The `syscall_gas!` macro (src/r55/src/gas.rs): record a cost, or
short-circuit the dispatcher with an OutOfGas result carrying empty output
and the unchanged gas counter. -/
def syscallGas (g : Gas) (cost : Nat) : Except InterpreterResult Gas :=
  let rec1 := g.record_cost cost
  if rec1.1 then .ok rec1.2 else .error ⟨.OutOfGas, [], rec1.2⟩

/-- The `return_revert` closure of `execute_riscv` (lines 240-250): record
`gas_used` (ignoring failure) and produce a Revert with empty output. -/
def return_revert (itp : InterpState) (gas_used : Nat) : InterpreterResult :=
  ⟨.Revert, [], (itp.gas.record_cost gas_used).2⟩

/-- revm `CallInputs` as filled in by `execute_call`. -/
structure CallInputsModel where
  input : List Nat
  gas_limit : Nat
  target_address : List Nat
  bytecode_address : List Nat
  caller : List Nat
  value : Nat
  is_static : Bool
  return_memory_start : Nat
  return_memory_end : Nat

/-- What one reaction of the dispatcher can produce.  `cont` loops back to
running the emulator; `action` is a terminal Return/Revert/OutOfGas
interpreter action; `callAction` is a host sub-call action (the suspended
state); `hardError` is an error propagated out of `execute_riscv` with `?`;
`panicRust` is a Rust panic inside the dispatcher; `noArm` marks a catalog
variant for which the source match has no arm at all. -/
inductive DispatchResult where
  | cont (emu : EmuState) (itp : InterpState)
  | action (r : InterpreterResult)
  | callAction (inputs : CallInputsModel) (itp : InterpState)
  | hardError
  | panicRust
  | noArm (s : Syscall)

/-! Gas constants from src/r55/src/gas.rs. -/

def SLOAD_COLD : Nat := 2100
def SLOAD_WARM : Nat := 100
def SSTORE_COLD : Nat := 2200
def SSTORE_WARM : Nat := 100
def CALL_EMPTY_ACCOUNT : Nat := 25000
def CALL_NEW_ACCOUNT : Nat := 2600
def CALL_VALUE : Nat := 9000
def CALL_BASE : Nat := 100

/-- Packing of a 20-byte address into three 64-bit registers, as performed by
the Caller and Origin arms (exec.rs lines 395-407 and 476-493): the first
8 bytes big-endian, the next 8 bytes big-endian, the last 4 bytes padded
with four zero bytes, big-endian. -/
def packAddress (addr : List Nat) : Nat × Nat × Nat :=
  (beVal (addr.take 8), beVal ((addr.drop 8).take 8),
   beVal ((addr.drop 16).take 4 ++ [0, 0, 0, 0]))

/-- Big-endian 8-byte encoding of a u64 (`u64::to_be_bytes`). -/
def toBe8 (n : Nat) : List Nat :=
  [n / 256 ^ 7 % 256, n / 256 ^ 6 % 256, n / 256 ^ 5 % 256, n / 256 ^ 4 % 256,
   n / 256 ^ 3 % 256, n / 256 ^ 2 % 256, n / 256 % 256, n % 256]

/-- The contract-side unpacking done by `msg_sender`
(eth-riscv-runtime/src/lib.rs lines 139-151): big-endian bytes of the first
two registers, then the first 4 big-endian bytes of the third. -/
def msg_sender (packed : Nat × Nat × Nat) : List Nat :=
  toBe8 packed.1 ++ toBe8 packed.2.1 ++ (toBe8 packed.2.2).take 4

/-- `Address::from_word(U256::from_limbs([a0, a1, a2, 0]).into())`: the
20 low-order bytes of the 32-byte big-endian word of the 256-bit value with
little-endian limbs a0, a1, a2, 0. -/
def addressFromLimbs (a0 a1 a2 : Nat) : List Nat :=
  let v := a0 % U64MOD + a1 % U64MOD * 2 ^ 64 + a2 % U64MOD * 2 ^ 128
  ((List.range 32).map (fun i => v / 256 ^ (31 - i) % 256)).drop 12

/-- `execute_call` (src/r55/src/exec.rs lines 542-605): read the packed
target address, value and calldata range from a0-a5, charge the
account-access and value surcharges, proactively spend the whole remaining
gas as the child gas limit, and yield a host sub-call action whose
return-memory window is `0..0` (return data is handled with
RETURNDATACOPY). -/
def execute_call (emu : EmuState) (itp : InterpState) (host : HostModel)
    (is_static : Bool) : DispatchResult :=
  let addr := addressFromLimbs (emu.regs 10) (emu.regs 11) (emu.regs 12)
  let value := emu.regs 13
  let args_offset := emu.regs 14
  let args_size := emu.regs 15
  let calldata := (dramRead emu args_offset args_size).getD []
  let costs : Nat × Nat :=
    optionElim (host.loadAccountDelegated addr)
      (CALL_EMPTY_ACCOUNT, CALL_NEW_ACCOUNT)
      (fun is_cold => if is_cold then (0, CALL_NEW_ACCOUNT) else (0, CALL_BASE))
  let value_cost := if value ≠ 0 then CALL_VALUE else 0
  let call_gas_cost := costs.1 + costs.2 + value_cost
  exceptElim (syscallGas itp.gas call_gas_cost) (fun r => .action r) (fun g1 =>
    let call_gas_limit := g1.remaining
    exceptElim (syscallGas g1 call_gas_limit) (fun r => .action r) (fun g2 =>
      .callAction
        { input := calldata
          gas_limit := call_gas_limit
          target_address := addr
          bytecode_address := addr
          caller := itp.targetAddr
          value := value
          is_static := is_static
          return_memory_start := 0
          return_memory_end := 0 }
        { itp with gas := g2 }))

/-- The syscall dispatch of `execute_riscv` (src/r55/src/exec.rs lines
265-527), one arm per catalog variant in source order.  The source match has
no arm for `Create` and `ReturnCreateAddress` (it is not exhaustive over the
catalog it imports); those two variants are mapped to `noArm`. -/
def dispatchSyscall (sc : Syscall) (emu : EmuState) (itp : InterpState)
    (host : HostModel) : DispatchResult :=
  match sc with
  | .Return =>
    let ret_offset := emu.regs 10
    let ret_size := emu.regs 11
    let r55_gas := r55_gas_used emu.instCounter
    exceptElim (syscallGas itp.gas r55_gas) (fun r => .action r) (fun g =>
      optionElim (dram_slice emu ret_offset ret_size) .hardError
        (fun data_bytes => .action ⟨.Return, data_bytes, g⟩))
  | .SLoad =>
    let key := (emu.regs 10, emu.regs 11, emu.regs 12, emu.regs 13)
    optionElim (host.sload itp.targetAddr key)
      (.action (return_revert itp itp.gas.spent))
      (fun state_load =>
        let emu1 := { emu with regs := writeU256 emu.regs state_load.1 }
        exceptElim
          (syscallGas itp.gas
            (if state_load.2 then SLOAD_COLD else SLOAD_WARM))
          (fun r => .action r) (fun g => .cont emu1 { itp with gas := g }))
  | .SStore =>
    let key := (emu.regs 10, emu.regs 11, emu.regs 12, emu.regs 13)
    let value := (emu.regs 14, emu.regs 15, emu.regs 16, emu.regs 17)
    optionElim (host.sstore itp.targetAddr key value) (.cont emu itp)
      (fun is_cold =>
        exceptElim
          (syscallGas itp.gas (if is_cold then SSTORE_COLD else SSTORE_WARM))
          (fun r => .action r) (fun g => .cont emu { itp with gas := g }))
  | .ReturnDataSize =>
    .cont { emu with regs := writeReg emu.regs 10 itp.returnDataBuffer.length }
      itp
  | .ReturnDataCopy =>
    let dest_offset := emu.regs 10
    let offset := emu.regs 11
    let size := emu.regs 12
    if offset + size ≤ itp.returnDataBuffer.length then
      let data := (itp.returnDataBuffer.drop offset).take size
      optionElim (dramWrite emu dest_offset data) .hardError
        (fun emu1 => .cont emu1 itp)
    else .panicRust
  | .Call => execute_call emu itp host false
  | .StaticCall => execute_call emu itp host true
  | .Revert =>
    let ret_offset := emu.regs 10
    let ret_size := emu.regs 11
    optionElim (dram_slice emu ret_offset ret_size) .hardError
      (fun data_bytes => .action ⟨.Revert, data_bytes, itp.gas⟩)
  | .Caller =>
    let p := packAddress itp.callerAddr
    .cont
      { emu with
        regs := writeReg (writeReg (writeReg emu.regs 10 p.1) 11 p.2.1)
          12 p.2.2 }
      itp
  | .Keccak256 =>
    let ret_offset := emu.regs 10
    let ret_size := emu.regs 11
    optionElim (dram_slice emu ret_offset ret_size) .hardError
      (fun data_bytes =>
        .cont { emu with regs := writeU256 emu.regs (host.keccak data_bytes) }
          itp)
  | .CallValue =>
    .cont { emu with regs := writeU256 emu.regs itp.callValue } itp
  | .BaseFee =>
    .cont { emu with regs := writeU256 emu.regs host.block_basefee } itp
  | .ChainId =>
    .cont { emu with regs := writeReg emu.regs 10 host.chain_id } itp
  | .GasLimit =>
    .cont { emu with regs := writeU256 emu.regs host.block_gas_limit } itp
  | .Number =>
    .cont { emu with regs := writeU256 emu.regs host.block_number } itp
  | .Timestamp =>
    .cont { emu with regs := writeU256 emu.regs host.block_timestamp } itp
  | .GasPrice =>
    .cont { emu with regs := writeU256 emu.regs host.tx_gas_price } itp
  | .Origin =>
    let p := packAddress host.tx_origin
    .cont
      { emu with
        regs := writeReg (writeReg (writeReg emu.regs 10 p.1) 11 p.2.1)
          12 p.2.2 }
      itp
  | .Log =>
    let data_ptr := emu.regs 10
    let data_size := emu.regs 11
    let topics_ptr := emu.regs 12
    let topics_size := emu.regs 13
    let _data := (dramRead emu data_ptr data_size).getD []
    let _topics := (dramRead emu topics_ptr (topics_size * 32)).getD []
    .cont emu itp
  | .Create => .noArm .Create
  | .ReturnCreateAddress => .noArm .ReturnCreateAddress

/-- The ecall-trap handler of `execute_riscv` (lines 256-263): read the
syscall id from register t0 (x5), convert `t0 as u8` with
`Syscall::try_from`, revert the frame charging the gas spent so far on an
unknown id, and dispatch otherwise. -/
def handleEcall (emu : EmuState) (itp : InterpState) (host : HostModel) :
    DispatchResult :=
  let t0 := emu.regs 5
  optionElim (syscallFromByte (t0 % 256))
    (.action (return_revert itp itp.gas.spent))
    (fun sc => dispatchSyscall sc emu itp host)

/-- The non-ecall-fault handler of `execute_riscv` (the `Err(e)` arm, lines
533-537; the exception value is only logged): charge the accumulated
instruction gas (OutOfGas short circuit included), then revert with empty
output recording the gas spent so far. -/
def handleFault (emu : EmuState) (itp : InterpState) : DispatchResult :=
  exceptElim (syscallGas itp.gas (r55_gas_used emu.instCounter))
    (fun r => .action r)
    (fun g => .action (return_revert { itp with gas := g } g.spent))

/-! ## Concrete fixtures used by witnesses and counterexamples -/

/-- All registers zero. -/
def zeroRegs : Nat → Nat := fun _ => 0

/-- A trivial host: storage lookups miss, accounts resolve warm, every
environment field is zero. -/
def hostFix : HostModel :=
  { sload := fun _ _ => none
    sstore := fun _ _ _ => none
    loadAccountDelegated := fun _ => some false
    keccak := fun _ => (0, 0, 0, 0)
    block_basefee := (0, 0, 0, 0)
    block_gas_limit := (0, 0, 0, 0)
    block_number := (0, 0, 0, 0)
    block_timestamp := (0, 0, 0, 0)
    tx_gas_price := (0, 0, 0, 0)
    chain_id := 0
    tx_origin := [] }

/-- A frame whose syscall-id register holds the unknown id 0x99. -/
def emuUnknown : EmuState := ⟨writeReg zeroRegs 5 0x99, [], []⟩

/-- An interpreter state with limit 100 of which 40 is already spent. -/
def itpFix : InterpState := ⟨⟨100, 60⟩, [], [], [], (0, 0, 0, 0)⟩

/-- An ecall state requesting ReturnDataCopy of one byte from an empty
return-data buffer (register a2 holds size 1). -/
def emuRdcOob : EmuState := ⟨writeReg (writeReg zeroRegs 5 0x3E) 12 1, [], []⟩

/-- A faulting frame whose instruction tally is 10175538 add instructions
(weighted cost 10175538, so the net charge is exactly 1000000). -/
def emuFaultBig : EmuState := ⟨zeroRegs, [], [("add", 10175538)]⟩

/-- An interpreter state whose whole 100-gas budget is still unspent. -/
def itpSmallGas : InterpState := ⟨⟨100, 100⟩, [], [], [], (0, 0, 0, 0)⟩

/-- A returning frame that executed 400000 div instructions (weighted cost
10000000, net charge 824462), with zero return size. -/
def emuRet : EmuState := ⟨zeroRegs, [], [("div", 400000)]⟩

/-- A rich interpreter state: gas limit 1000000 untouched. -/
def itpRet : InterpState := ⟨⟨1000000, 1000000⟩, [], [], [], (0, 0, 0, 0)⟩

/-- Call-witness frame: all argument registers zero. -/
def emuCall : EmuState := ⟨zeroRegs, [], []⟩

/-- Call-witness interpreter state: gas limit 1000 untouched. -/
def itpCall : InterpState := ⟨⟨1000, 1000⟩, [], [], [], (0, 0, 0, 0)⟩

/-- The sub-call inputs produced from `emuCall` / `itpCall` / `hostFix`:
warm-account cost 100 is charged, the remaining 900 becomes the child gas
limit, and the return-memory window is empty. -/
def callInputsFix : CallInputsModel :=
  { input := []
    gas_limit := 900
    target_address := List.replicate 20 0
    bytecode_address := List.replicate 20 0
    caller := []
    value := 0
    is_static := false
    return_memory_start := 0
    return_memory_end := 0 }

/-- The interpreter state after `execute_call` proactively spends the whole
remaining budget. -/
def itpCallAfter : InterpState := ⟨⟨1000, 0⟩, [], [], [], (0, 0, 0, 0)⟩

/-- ReturnDataCopy-witness frame: copy zero bytes to address DRAM_BASE of a
one-byte DRAM. -/
def emuRdcOk : EmuState := ⟨writeReg zeroRegs 10 DRAM_BASE, [0], []⟩

/-- The frame after the witness ReturnDataCopy (the zero-length copy leaves
the one-byte DRAM unchanged). -/
def emuRdcOkAfter : EmuState :=
  ⟨writeReg zeroRegs 10 DRAM_BASE, writeBytes [0] 0 [], []⟩

/-- A returning frame whose one-byte output range starts at address 0, below
DRAM_BASE (register a1 holds size 1), after 400000 div instructions. -/
def emuRetOob : EmuState := ⟨writeReg zeroRegs 11 1, [], [("div", 400000)]⟩

/-- A 20-byte sample address 0x0102...14. -/
def addrFix : List Nat :=
  [1, 2, 3, 4, 5, 6, 7, 8, 9, 10, 11, 12, 13, 14, 15, 16, 17, 18, 19, 20]

/-- A well-formed one-byte PT_LOAD segment at 0x80300000 with a one-byte
.bss-style tail. -/
def phW : ProgHeader := ⟨1, 0x80300000, 0, 1, 2⟩

/-- A one-segment ELF used as the loader readback witness. -/
def elfW : Elf := ⟨[phW], 0x80300000⟩

/-- A PT_LOAD segment sitting exactly at DRAM_BASE, on top of the calldata
prefix region: zero file bytes, one in-memory byte. -/
def phOverlap : ProgHeader := ⟨1, DRAM_BASE, 0, 0, 1⟩

/-- A one-segment ELF whose segment overlaps the calldata region. -/
def elfOverlap : Elf := ⟨[phOverlap], 0⟩

/-- The memory image produced by loading `elfOverlap` with calldata [1]. -/
def memOverlap : List Nat :=
  loadSegmentCore []
    (writeBytes (writeBytes (List.replicate (1024 * 1024) 0) 0
      (toLe8 (List.length [1]))) 8 [1])
    phOverlap

/-- An ELF with one PT_LOAD segment whose virtual address 0 lies below
DRAM_BASE. -/
def elfBadVaddr : Elf := ⟨[⟨1, 0, 0, 0, 0⟩], 0⟩

/-- An ELF with one PT_LOAD segment whose in-memory size exceeds
DRAM_SIZE. -/
def elfBadMemsz : Elf := ⟨[⟨1, DRAM_BASE, 0, 0, DRAM_SIZE + 1⟩], 0⟩

/-! ## Theorems -/

theorem optionElim_none {α γ : Type _} (a : γ) (f : α → γ) :
    optionElim none a f = a := rfl

theorem optionElim_some {α γ : Type _} (x : α) (a : γ) (f : α → γ) :
    optionElim (some x) a f = f x := rfl

theorem exceptElim_error {ε α γ : Type _} (e : ε) (f : ε → γ) (g : α → γ) :
    exceptElim (.error e) f g = f e := rfl

theorem exceptElim_ok {ε α γ : Type _} (a : α) (f : ε → γ) (g : α → γ) :
    exceptElim (.ok a) f g = g a := rfl

theorem listElim_nil {α γ : Type _} (a : γ) (f : α → List α → γ) :
    listElim [] a f = a := rfl

theorem listElim_cons {α γ : Type _} (x : α) (t : List α) (a : γ)
    (f : α → List α → γ) : listElim (x :: t) a f = f x t := rfl

/-- `syscall_gas!` when the charge fits: the remaining gas drops by the
cost. -/
theorem syscallGas_le (g : Gas) (c : Nat) (h : c ≤ g.remaining) :
    syscallGas g c = .ok ⟨g.limit, g.remaining - c⟩ := by
  simp [syscallGas, Gas.record_cost, h]

/-- `syscall_gas!` when the charge exceeds the remaining gas: OutOfGas with
empty output and unchanged counter. -/
theorem syscallGas_gt (g : Gas) (c : Nat) (h : ¬ c ≤ g.remaining) :
    syscallGas g c = .error ⟨.OutOfGas, [], g⟩ := by
  simp [syscallGas, Gas.record_cost, h]

/-- Claim C2: for every ecall whose syscall-id register value does not map to
a known SyscallId, the frame produces a Revert outcome with empty output,
charging exactly the gas spent so far (a Nat, hence non-negative), and never
a process-level failure; unknown syscalls are never silently skipped. -/
theorem unknown_syscall_reverts (emu : EmuState) (itp : InterpState)
    (host : HostModel)
    (h : syscallFromByte (emu.regs 5 % 256) = none) :
    handleEcall emu itp host =
      .action ⟨.Revert, [], (itp.gas.record_cost itp.gas.spent).2⟩ := by
  simp only [handleEcall, h, optionElim_none, return_revert]

/-- Witness for unknown_syscall_reverts at the unknown id 0x99. -/
theorem unknown_syscall_reverts_witness :
    syscallFromByte (emuUnknown.regs 5 % 256) = none ∧
      handleEcall emuUnknown itpFix hostFix =
        .action ⟨.Revert, [], ⟨100, 20⟩⟩ :=
  ⟨rfl, unknown_syscall_reverts emuUnknown itpFix hostFix rfl⟩

/-- Claim C8: the source `match` of `execute_riscv` has no handling arm for
the catalog variants `Create` (0xF0) and `ReturnCreateAddress` (0x01),
although `Syscall::try_from` maps those numeric ids to them; a Create ecall
therefore cannot yield a host CREATE action. -/
theorem create_syscall_has_no_dispatch_arm :
    (∀ emu itp host, dispatchSyscall .Create emu itp host = .noArm .Create) ∧
      (∀ emu itp host, dispatchSyscall .ReturnCreateAddress emu itp host =
        .noArm .ReturnCreateAddress) ∧
      syscallFromByte 0xF0 = some .Create ∧
      syscallFromByte 0x01 = some .ReturnCreateAddress :=
  ⟨fun _ _ _ => rfl, fun _ _ _ => rfl, rfl, rfl⟩

/-- Claim C6 (amended): on a non-ecall fault the frame terminates with empty
output, as a Revert charging the accumulated instruction gas when that
charge fits in the remaining budget, and as an OutOfGas otherwise; never as
a hard error or panic. -/
theorem fault_reverts_or_runs_out_of_gas (emu : EmuState) (itp : InterpState) :
    ∃ r, handleFault emu itp = .action r ∧ r.output = [] ∧
      (r.result = .Revert ∨ r.result = .OutOfGas) ∧
      (r.result = .Revert ↔
        r55_gas_used emu.instCounter ≤ itp.gas.remaining) := by
  by_cases h : r55_gas_used emu.instCounter ≤ itp.gas.remaining
  · have hsg := syscallGas_le itp.gas (r55_gas_used emu.instCounter) h
    have heq : handleFault emu itp = .action (return_revert
        { itp with gas := ⟨itp.gas.limit,
            itp.gas.remaining - r55_gas_used emu.instCounter⟩ }
        (Gas.spent ⟨itp.gas.limit,
            itp.gas.remaining - r55_gas_used emu.instCounter⟩)) := by
      simp only [handleFault, hsg, exceptElim_ok]
    exact ⟨_, heq, rfl, Or.inl rfl, fun _ => h, fun _ => rfl⟩
  · have hsg := syscallGas_gt itp.gas (r55_gas_used emu.instCounter) h
    have heq : handleFault emu itp = .action ⟨.OutOfGas, [], itp.gas⟩ := by
      simp only [handleFault, hsg, exceptElim_error]
    exact ⟨_, heq, rfl, Or.inr rfl, fun hc => RKind.noConfusion hc,
      fun hc => absurd hc h⟩

/-- Counterexample to claim C6 as stated: on a fault after 10175538 add
instructions (net charge 1000000) with only 100 gas remaining, the frame
terminates as OutOfGas, not as a Revert. -/
theorem fault_oog_counterexample :
    handleFault emuFaultBig itpSmallGas =
      .action ⟨.OutOfGas, [], ⟨100, 100⟩⟩ ∧ RKind.OutOfGas ≠ RKind.Revert :=
  ⟨rfl, by decide⟩

theorem instCost_mono (s : String) {c1 c2 : Nat} (h : c1 ≤ c2) :
    instCost s c1 ≤ instCost s c2 := by
  unfold instCost
  split_ifs <;> omega

theorem totalInstCost_mono {m1 m2 : InstCounter}
    (h : List.Forall₂ (fun p q => p.1 = q.1 ∧ p.2 ≤ q.2) m1 m2) :
    totalInstCost m1 ≤ totalInstCost m2 := by
  induction h with
  | nil => exact le_refl _
  | @cons p q t1 t2 hpq _ ih =>
    simp only [totalInstCost, List.map_cons, List.sum_cons] at ih ⊢
    have hstep : instCost p.1 p.2 ≤ instCost q.1 q.2 := by
      rw [hpq.1]
      exact instCost_mono _ hpq.2
    omega

/-- Below 2 ^ 64 and above the subtrahend, wrapping subtraction is plain
subtraction. -/
theorem wsub64_sub {t c : Nat} (h1 : c ≤ t) (h2 : t < U64MOD) :
    wsub64 t c = t - c := by
  have hU : U64MOD = 18446744073709551616 := by norm_num [U64MOD]
  unfold wsub64
  rw [hU] at h2 ⊢
  omega

/-- Claim C5 (amended): the Return syscall charges exactly
`r55_gas_used` of the instruction tally, once; for tallies whose weighted
total is at least the calibration constant (and below 2 ^ 64, where u64
subtraction cannot wrap), that charge equals the weighted sum minus the
constant, and executing more instructions of the same class mix never
decreases the charge. -/
theorem return_gas_model :
    (∀ emu itp host bytes,
        r55_gas_used emu.instCounter ≤ itp.gas.remaining →
        dram_slice emu (emu.regs 10) (emu.regs 11) = some bytes →
        dispatchSyscall .Return emu itp host = .action ⟨.Return, bytes,
          ⟨itp.gas.limit,
            itp.gas.remaining - r55_gas_used emu.instCounter⟩⟩) ∧
    (∀ m, ABI_DECODE_COST ≤ totalInstCost m → totalInstCost m < U64MOD →
        r55_gas_used m = totalInstCost m - ABI_DECODE_COST) ∧
    (∀ m1 m2, List.Forall₂ (fun p q => p.1 = q.1 ∧ p.2 ≤ q.2) m1 m2 →
        ABI_DECODE_COST ≤ totalInstCost m1 → totalInstCost m2 < U64MOD →
        r55_gas_used m1 ≤ r55_gas_used m2) := by
  refine ⟨?_, ?_, ?_⟩
  · intro emu itp host bytes hgas hdram
    have hsg := syscallGas_le itp.gas (r55_gas_used emu.instCounter) hgas
    simp only [dispatchSyscall, hsg, exceptElim_ok, hdram, optionElim_some]
  · intro m h1 h2
    exact wsub64_sub h1 h2
  · intro m1 m2 hdom h1 h2
    have hmono := totalInstCost_mono hdom
    simp only [r55_gas_used]
    rw [wsub64_sub h1 (lt_of_le_of_lt hmono h2),
      wsub64_sub (le_trans h1 hmono) h2]
    omega

/-- Witness for return_gas_model: 400000 div instructions cost 10000000,
charge 824462 after the calibration constant, recorded exactly once at the
Return dispatch. -/
theorem return_gas_model_witness :
    dispatchSyscall .Return emuRet itpRet hostFix =
        .action ⟨.Return, [], ⟨1000000, 175538⟩⟩ ∧
      r55_gas_used [("div", 400000)] = 824462 ∧
      r55_gas_used [("add", 9175538)] ≤ r55_gas_used [("add", 9175540)] :=
  ⟨return_gas_model.1 emuRet itpRet hostFix [] (by decide) rfl,
    (return_gas_model.2.1 [("div", 400000)] (by decide) (by decide)).trans
      (by decide),
    return_gas_model.2.2 [("add", 9175538)] [("add", 9175540)]
      (List.Forall₂.cons ⟨rfl, by norm_num⟩ List.Forall₂.nil) (by decide)
      (by decide)⟩

/-- Counterexample to claim C5 as stated: u64 subtraction of the calibration
constant wraps below the constant, so 9175537 add instructions are charged
2 ^ 64 - 1 gas while 9175539 add instructions are charged 1: more
instructions of the same mix, strictly less charged gas. -/
theorem gas_monotonicity_counterexample :
    List.Forall₂ (fun p q => p.1 = q.1 ∧ p.2 ≤ q.2)
        [("add", 9175537)] [("add", 9175539)] ∧
      r55_gas_used [("add", 9175539)] < r55_gas_used [("add", 9175537)] :=
  ⟨List.Forall₂.cons ⟨rfl, by norm_num⟩ List.Forall₂.nil, by decide⟩

/-- Big-endian byte decomposition inverts big-endian byte composition for
8-byte strings. -/
theorem toBe8_beVal (l : List Nat) (h : l.length = 8)
    (hb : ∀ b ∈ l, b < 256) : toBe8 (beVal l) = l := by
  rcases l with _ | ⟨b0, l⟩; · simp at h
  rcases l with _ | ⟨b1, l⟩; · simp at h
  rcases l with _ | ⟨b2, l⟩; · simp at h
  rcases l with _ | ⟨b3, l⟩; · simp at h
  rcases l with _ | ⟨b4, l⟩; · simp at h
  rcases l with _ | ⟨b5, l⟩; · simp at h
  rcases l with _ | ⟨b6, l⟩; · simp at h
  rcases l with _ | ⟨b7, l⟩; · simp at h
  rcases l with _ | ⟨b8, l⟩
  · have h0 : b0 < 256 := hb b0 (by simp)
    have h1 : b1 < 256 := hb b1 (by simp)
    have h2 : b2 < 256 := hb b2 (by simp)
    have h3 : b3 < 256 := hb b3 (by simp)
    have h4 : b4 < 256 := hb b4 (by simp)
    have h5 : b5 < 256 := hb b5 (by simp)
    have h6 : b6 < 256 := hb b6 (by simp)
    have h7 : b7 < 256 := hb b7 (by simp)
    simp only [toBe8, beVal, List.foldl]
    norm_num
    refine ⟨?_, ?_, ?_, ?_, ?_, ?_, ?_, ?_⟩ <;> omega
  · simp at h

/-- Claim C7: packing a 20-byte address into three registers as 8+8+4 bytes
(as the Caller/Origin arms do) and unpacking on the contract side
(msg_sender) recovers exactly the original address, and the Caller dispatch
writes exactly the packed triple into registers a0-a2. -/
theorem address_pack_unpack :
    (∀ addr : List Nat, addr.length = 20 → (∀ b ∈ addr, b < 256) →
        msg_sender (packAddress addr) = addr) ∧
    (∀ emu itp host, dispatchSyscall .Caller emu itp host =
        .cont
          { emu with
            regs := writeReg
              (writeReg (writeReg emu.regs 10 (packAddress itp.callerAddr).1)
                11 (packAddress itp.callerAddr).2.1)
              12 (packAddress itp.callerAddr).2.2 }
          itp) := by
  constructor
  · intro addr hlen hb
    have hlen8 : (addr.take 8).length = 8 := by simp [hlen]
    have hlen8b : ((addr.drop 8).take 8).length = 8 := by simp [hlen]
    have hlen4 : ((addr.drop 16).take 4).length = 4 := by simp [hlen]
    unfold msg_sender packAddress
    rw [toBe8_beVal _ hlen8 (fun b hmem => hb b (List.take_subset _ _ hmem)),
      toBe8_beVal _ hlen8b (fun b hmem =>
        hb b (List.drop_subset _ _ (List.take_subset _ _ hmem))),
      toBe8_beVal _ (by simp [hlen4]) (fun b hmem => by
        rcases List.mem_append.mp hmem with hmem | hmem
        · exact hb b (List.drop_subset _ _ (List.take_subset _ _ hmem))
        · have hz : b = 0 := by simpa using hmem
          omega)]
    rw [List.take_left' hlen4]
    have hdrop : (addr.drop 8).drop 8 = addr.drop 16 := by
      rw [List.drop_drop]
    have h12 : (addr.drop 8).length = 12 := by simp [hlen]
    have htake4 : (addr.drop 16).take 4 = addr.drop 16 := by
      apply List.take_of_length_le
      simp [hlen]
    rw [htake4]
    rw [← hdrop, List.append_assoc, List.take_append_drop,
      List.take_append_drop]
  · intro emu itp host
    rfl

theorem exceptElim_rev {ε α γ : Type _} {e : Except ε α} {f : ε → γ}
    {g : α → γ} {d : γ} (h : exceptElim e f g = d) :
    (∃ r, e = .error r ∧ f r = d) ∨ (∃ a, e = .ok a ∧ g a = d) := by
  cases e with
  | error r => exact Or.inl ⟨r, rfl, h⟩
  | ok a => exact Or.inr ⟨a, rfl, h⟩

theorem cont_not_escape {emu : EmuState} {itp : InterpState} :
    ¬(DispatchResult.cont emu itp = .hardError ∨
      DispatchResult.cont emu itp = .panicRust) :=
  fun h => h.elim (fun h1 => DispatchResult.noConfusion h1)
    (fun h1 => DispatchResult.noConfusion h1)

theorem noArm_not_escape {s : Syscall} :
    ¬(DispatchResult.noArm s = .hardError ∨
      DispatchResult.noArm s = .panicRust) :=
  fun h => h.elim (fun h1 => DispatchResult.noConfusion h1)
    (fun h1 => DispatchResult.noConfusion h1)

theorem optionElim_rev {α γ : Type _} {o : Option α} {fnone : γ}
    {fsome : α → γ} {d : γ} (h : optionElim o fnone fsome = d) :
    (o = none ∧ fnone = d) ∨ (∃ a, o = some a ∧ fsome a = d) := by
  cases o with
  | none => exact Or.inl ⟨rfl, h⟩
  | some a => exact Or.inr ⟨a, rfl, h⟩

/-- Claim C10: every Call/StaticCall sub-call action carries the empty
return-memory window 0..0, the Call and StaticCall arms are exactly
`execute_call`, ReturnDataSize reports the length of the interpreter
return-data buffer, and ReturnDataCopy copies bytes out of that same buffer
into emulator DRAM. -/
theorem call_empty_return_window :
    (∀ emu itp host st inputs itp1,
        execute_call emu itp host st = .callAction inputs itp1 →
        inputs.return_memory_start = 0 ∧ inputs.return_memory_end = 0) ∧
    (∀ emu itp host,
        dispatchSyscall .Call emu itp host = execute_call emu itp host false ∧
        dispatchSyscall .StaticCall emu itp host =
          execute_call emu itp host true) ∧
    (∀ emu itp host, dispatchSyscall .ReturnDataSize emu itp host =
        .cont { emu with
          regs := writeReg emu.regs 10 itp.returnDataBuffer.length } itp) ∧
    (∀ emu itp host emu1 itp1,
        dispatchSyscall .ReturnDataCopy emu itp host = .cont emu1 itp1 →
        itp1 = itp ∧ emu1.dram = writeBytes emu.dram
          (emu.regs 10 - DRAM_BASE)
          ((itp.returnDataBuffer.drop (emu.regs 11)).take (emu.regs 12))) := by
  refine ⟨?_, fun _ _ _ => ⟨rfl, rfl⟩, fun _ _ _ => rfl, ?_⟩
  · intro emu itp host st inputs itp1 h
    simp only [execute_call] at h
    rcases exceptElim_rev h with ⟨r, _, hbad⟩ | ⟨g1, _, h2⟩
    · exact DispatchResult.noConfusion hbad
    · rcases exceptElim_rev h2 with ⟨r, _, hbad⟩ | ⟨g2, _, h3⟩
      · exact DispatchResult.noConfusion hbad
      · obtain ⟨h4, h5⟩ := DispatchResult.callAction.inj h3
        rw [← h4]
        exact ⟨rfl, rfl⟩
  · intro emu itp host emu1 itp1 h
    simp only [dispatchSyscall] at h
    split at h
    · rcases optionElim_rev h with ⟨_, hbad⟩ | ⟨a, ha, hcont⟩
      · exact DispatchResult.noConfusion hbad
      · obtain ⟨h4, h5⟩ := DispatchResult.cont.inj hcont
        refine ⟨h5.symm, ?_⟩
        rw [← h4]
        unfold dramWrite at ha
        split at ha
        · obtain h6 := Option.some.inj ha
          rw [← h6]
        · exact Option.noConfusion ha
    · exact DispatchResult.noConfusion h

/-- Witness for call_empty_return_window: a concrete warm zero-value call
yields a sub-call action with window 0..0, and a concrete zero-length
ReturnDataCopy continues with the buffer-sourced bytes written to DRAM. -/
theorem call_empty_return_window_witness :
    (execute_call emuCall itpCall hostFix false =
        .callAction callInputsFix itpCallAfter) ∧
      callInputsFix.return_memory_start = 0 ∧
      callInputsFix.return_memory_end = 0 ∧
      (dispatchSyscall .ReturnDataCopy emuRdcOk itpFix hostFix =
        .cont emuRdcOkAfter itpFix) ∧
      emuRdcOkAfter.dram = writeBytes emuRdcOk.dram
        (emuRdcOk.regs 10 - DRAM_BASE)
        ((itpFix.returnDataBuffer.drop (emuRdcOk.regs 11)).take
          (emuRdcOk.regs 12)) := by
  have h1 : execute_call emuCall itpCall hostFix false =
      .callAction callInputsFix itpCallAfter := rfl
  have h2 : dispatchSyscall .ReturnDataCopy emuRdcOk itpFix hostFix =
      .cont emuRdcOkAfter itpFix := rfl
  have hw := call_empty_return_window.1 emuCall itpCall hostFix false
    callInputsFix itpCallAfter h1
  have hrdc := (call_empty_return_window.2.2.2 emuRdcOk itpFix hostFix
    emuRdcOkAfter itpFix h2).2
  exact ⟨h1, hw.1, hw.2, h2, hrdc⟩

/-- Claim C1 (amended): host-side lookup misses, unknown syscall ids and
non-ecall faults are absorbed into the normal Revert/OutOfGas outcome
channel, but an out-of-range memory argument can escape the dispatcher: a
hard error or Rust panic is possible exactly in the Return, Revert,
Keccak256 and ReturnDataCopy arms (DRAM range errors propagated with `?`,
and panicking slicing of the return-data buffer). -/
theorem contract_failure_absorption :
    (∀ emu itp host, syscallFromByte (emu.regs 5 % 256) = none →
        ∃ r, handleEcall emu itp host = .action r ∧ r.result = .Revert ∧
          r.output = []) ∧
    (∀ emu itp host,
        host.sload itp.targetAddr
            (emu.regs 10, emu.regs 11, emu.regs 12, emu.regs 13) = none →
        dispatchSyscall .SLoad emu itp host =
          .action (return_revert itp itp.gas.spent)) ∧
    (∀ emu itp, ∃ r, handleFault emu itp = .action r ∧
        (r.result = .Revert ∨ r.result = .OutOfGas)) ∧
    (∀ sc emu itp host,
        dispatchSyscall sc emu itp host = .hardError ∨
          dispatchSyscall sc emu itp host = .panicRust →
        sc = .Return ∨ sc = .Revert ∨ sc = .Keccak256 ∨
          sc = .ReturnDataCopy) := by
  refine ⟨?_, ?_, ?_, ?_⟩
  · intro emu itp host h
    have heq : handleEcall emu itp host =
        .action (return_revert itp itp.gas.spent) := by
      simp only [handleEcall, h, optionElim_none]
    exact ⟨_, heq, rfl, rfl⟩
  · intro emu itp host h
    simp only [dispatchSyscall, h, optionElim_none]
  · intro emu itp
    by_cases h : r55_gas_used emu.instCounter ≤ itp.gas.remaining
    · have hsg := syscallGas_le itp.gas (r55_gas_used emu.instCounter) h
      have heq : handleFault emu itp = .action (return_revert
          { itp with gas := ⟨itp.gas.limit,
              itp.gas.remaining - r55_gas_used emu.instCounter⟩ }
          (Gas.spent ⟨itp.gas.limit,
              itp.gas.remaining - r55_gas_used emu.instCounter⟩)) := by
        simp only [handleFault, hsg, exceptElim_ok]
      exact ⟨_, heq, Or.inl rfl⟩
    · have hsg := syscallGas_gt itp.gas (r55_gas_used emu.instCounter) h
      have heq : handleFault emu itp = .action ⟨.OutOfGas, [], itp.gas⟩ := by
        simp only [handleFault, hsg, exceptElim_error]
      exact ⟨_, heq, Or.inr rfl⟩
  · intro sc emu itp host h
    cases sc
    case Return => exact Or.inl rfl
    case Revert => exact Or.inr (Or.inl rfl)
    case Keccak256 => exact Or.inr (Or.inr (Or.inl rfl))
    case ReturnDataCopy => exact Or.inr (Or.inr (Or.inr rfl))
    case SLoad =>
      exfalso
      simp only [dispatchSyscall] at h
      rcases h with h | h
      all_goals
        rcases optionElim_rev h with ⟨_, hbad⟩ | ⟨x, _, h2⟩
        · exact DispatchResult.noConfusion hbad
        · rcases exceptElim_rev h2 with ⟨_, _, hbad⟩ | ⟨_, _, hbad⟩ <;>
            exact DispatchResult.noConfusion hbad
    case SStore =>
      exfalso
      simp only [dispatchSyscall] at h
      rcases h with h | h
      all_goals
        rcases optionElim_rev h with ⟨_, hbad⟩ | ⟨x, _, h2⟩
        · exact DispatchResult.noConfusion hbad
        · rcases exceptElim_rev h2 with ⟨_, _, hbad⟩ | ⟨_, _, hbad⟩ <;>
            exact DispatchResult.noConfusion hbad
    case Call =>
      exfalso
      simp only [dispatchSyscall, execute_call] at h
      rcases h with h | h
      all_goals
        rcases exceptElim_rev h with ⟨_, _, hbad⟩ | ⟨g1, _, h2⟩
        · exact DispatchResult.noConfusion hbad
        · rcases exceptElim_rev h2 with ⟨_, _, hbad⟩ | ⟨_, _, hbad⟩ <;>
            exact DispatchResult.noConfusion hbad
    case StaticCall =>
      exfalso
      simp only [dispatchSyscall, execute_call] at h
      rcases h with h | h
      all_goals
        rcases exceptElim_rev h with ⟨_, _, hbad⟩ | ⟨g1, _, h2⟩
        · exact DispatchResult.noConfusion hbad
        · rcases exceptElim_rev h2 with ⟨_, _, hbad⟩ | ⟨_, _, hbad⟩ <;>
            exact DispatchResult.noConfusion hbad
    case Create =>
      exact absurd (by simpa only [dispatchSyscall] using h) noArm_not_escape
    case ReturnCreateAddress =>
      exact absurd (by simpa only [dispatchSyscall] using h) noArm_not_escape
    all_goals
      exact absurd (by simpa only [dispatchSyscall] using h) cont_not_escape

/-- Witness for contract_failure_absorption: concrete instances of the
unknown-id revert, the storage-miss revert, the fault revert, and the
escape classification at the Return arm. -/
theorem contract_failure_absorption_witness :
    (∃ r, handleEcall emuUnknown itpFix hostFix = .action r ∧
        r.result = .Revert ∧ r.output = []) ∧
      dispatchSyscall .SLoad emuCall itpFix hostFix =
        .action (return_revert itpFix itpFix.gas.spent) ∧
      (∃ r, handleFault emuFaultBig itpSmallGas = .action r ∧
        (r.result = .Revert ∨ r.result = .OutOfGas)) ∧
      (Syscall.Return = .Return ∨ Syscall.Return = .Revert ∨
        Syscall.Return = .Keccak256 ∨ Syscall.Return = .ReturnDataCopy) :=
  ⟨contract_failure_absorption.1 emuUnknown itpFix hostFix rfl,
    contract_failure_absorption.2.1 emuCall itpFix hostFix rfl,
    contract_failure_absorption.2.2.1 emuFaultBig itpSmallGas,
    contract_failure_absorption.2.2.2 .Return emuRetOob itpRet hostFix
      (Or.inl rfl)⟩

theorem foldl_loadSectionsStep_none (d : List Nat) (phs : List ProgHeader) :
    phs.foldl (loadSectionsStep d) none = none := by
  induction phs with
  | nil => rfl
  | cons ph t ih =>
    rw [List.foldl_cons]
    exact ih

theorem load_sections_of_bad (d : List Nat) (phs : List ProgHeader) :
    ∀ mem, (∃ ph ∈ phs, ph.p_type = PT_LOAD ∧
        ¬(DRAM_BASE ≤ ph.p_vaddr ∧ ph.p_memsz ≤ DRAM_SIZE)) →
      load_sections d mem phs = none := by
  induction phs with
  | nil =>
    intro mem h
    rcases h with ⟨ph, hmem, _⟩
    simp at hmem
  | cons ph t ih =>
    intro mem h
    rcases h with ⟨ph0, hmem, hload, hbad⟩
    rw [List.mem_cons] at hmem
    unfold load_sections
    rw [List.foldl_cons]
    rcases hmem with rfl | hmem
    · have hstep : loadSectionsStep d (some mem) ph0 = none := by
        simp only [loadSectionsStep]
        rw [if_pos hload, if_neg hbad]
      rw [hstep]
      exact foldl_loadSectionsStep_none d t
    · cases hstep : loadSectionsStep d (some mem) ph with
      | none => exact foldl_loadSectionsStep_none d t
      | some m1 =>
        have hrec := ih m1 ⟨ph0, hmem, hload, hbad⟩
        unfold load_sections at hrec
        exact hrec

/-- Claim C9 (amended): a loadable header below DRAM_BASE or larger than
DRAM_SIZE, or an oversized calldata, makes the loader fail fast before any
execution begins, but through an assertion failure (a Rust panic), not by
returning an error to the caller: the only returned errors are the ELF parse
errors of the goblin crate. -/
theorem loader_fail_fast (elf : Elf) (elf_data call_data : List Nat)
    (h : (∃ ph ∈ elf.programHeaders, ph.p_type = PT_LOAD ∧
          (ph.p_vaddr < DRAM_BASE ∨ DRAM_SIZE < ph.p_memsz)) ∨
        1024 * 1024 - 8 ≤ call_data.length) :
    setup_from_elf elf elf_data call_data = .panicRaised := by
  unfold setup_from_elf
  by_cases hc : call_data.length < 1024 * 1024 - 8
  · rw [if_pos hc]
    rcases h with ⟨ph, hmem, hload, hbad⟩ | hlen
    · rw [load_sections_of_bad elf_data elf.programHeaders _
        ⟨ph, hmem, hload, by omega⟩]
      exact optionElim_none _ _
    · exact absurd hc (by omega)
  · rw [if_neg hc]

/-- Witness for loader_fail_fast at an oversized PT_LOAD segment. -/
theorem loader_fail_fast_witness :
    setup_from_elf elfBadMemsz [] [] = .panicRaised :=
  loader_fail_fast elfBadMemsz [] []
    (Or.inl ⟨⟨1, DRAM_BASE, 0, 0, DRAM_SIZE + 1⟩, by simp [elfBadMemsz], rfl,
      Or.inr (by norm_num)⟩)

/-- Counterexample to claim C9 as stated: a PT_LOAD segment below DRAM_BASE
makes the loader panic (assertion failure), which is a crash, not a returned
error value. -/
theorem loader_error_counterexample :
    setup_from_elf elfBadVaddr [] [] = .panicRaised ∧
      (∀ m pc, SetupOutcome.panicRaised ≠ SetupOutcome.ok m pc) :=
  ⟨rfl, fun _ _ h => SetupOutcome.noConfusion h⟩

theorem be4_length (n : Nat) : (be4 n).length = 4 := rfl

theorem beVal_be4 (n : Nat) (h : n < 4294967296) : beVal (be4 n) = n := by
  simp only [be4, beVal, List.foldl]
  norm_num
  omega

/-- Claim C4 (amended): decoding the revm-padded init code
`[0xFF][BE u32 codesize][R][A]` recovers the runtime blob stripped of its
leading 0xFF marker byte together with exactly the constructor args:
`decode(encode(R, A)) = (R.drop 1, A)`. -/
theorem initcode_decode_encode (R A : List Nat) (hmark : R.head? = some 0xFF)
    (hlen : R.length < 4294967296) :
    riscv_context_create (revmPadded (craft_initcode R A)) =
      some (R.drop 1, A) := by
  rcases R with _ | ⟨b, R1⟩
  · simp at hmark
  obtain rfl : b = 0xFF := by simpa using hmark
  have hval : beVal (be4 ((0xFF :: R1).length)) = R1.length + 1 := by
    rw [beVal_be4 _ (by simpa using hlen)]
    simp
  simp only [craft_initcode, revmPadded, riscv_context_create,
    List.cons_append, listElim_cons, List.append_assoc]
  rw [if_pos trivial]
  rw [List.take_left' (be4_length _), List.drop_left' (be4_length _)]
  simp only [List.cons_append, listElim_cons]
  rw [if_pos trivial]
  rw [hval]
  simp only [Nat.add_sub_cancel]
  have htake : (R1 ++ (A ++ List.replicate 33 0)).take R1.length = R1 :=
    List.take_left _ _
  have hdrop : (R1 ++ (A ++ List.replicate 33 0)).drop R1.length =
      A ++ List.replicate 33 0 :=
    List.drop_left _ _
  rw [htake, hdrop]
  have hlen2 : (0xFF :: (R1 ++ (A ++ List.replicate 33 0))).length - 34 -
      R1.length = A.length := by
    simp only [List.length_cons, List.length_append, List.length_replicate]
    omega
  rw [hlen2, List.take_left' rfl]
  simp

/-- Witness for initcode_decode_encode at a two-byte runtime blob and a
one-byte constructor argument. -/
theorem initcode_decode_encode_witness :
    riscv_context_create (revmPadded (craft_initcode [0xFF, 0x07] [0x2A])) =
      some (([0xFF, 0x07] : List Nat).drop 1, [0x2A]) :=
  initcode_decode_encode [0xFF, 0x07] [0x2A] rfl (by norm_num)

/-- Counterexample to claim C4 as stated: for the runtime blob
`R = [0xFF, 0x07]` and args `A = [0x2A]`, decoding the encoded init code
yields the marker-stripped blob `[0x07]`, not `R` itself. -/
theorem initcode_roundtrip_counterexample :
    riscv_context_create (revmPadded (craft_initcode [0xFF, 0x07] [0x2A])) =
        some ([0x07], [0x2A]) ∧ ([0x07] : List Nat) ≠ [0xFF, 0x07] :=
  ⟨rfl, by decide⟩

/-- Counterexample to claim C1 as stated: a ReturnDataCopy ecall asking for
one byte of an empty return-data buffer panics (out-of-range slice
indexing), escaping the dispatcher instead of producing a Return, Revert or
OutOfGas outcome. -/
theorem revert_absorption_counterexample :
    handleEcall emuRdcOob itpFix hostFix = .panicRust ∧
      (∀ r : InterpreterResult, DispatchResult.panicRust ≠ .action r) :=
  ⟨rfl, fun _ h => DispatchResult.noConfusion h⟩

theorem byteAt_append_left {l1 l2 : List Nat} {i : Nat} (h : i < l1.length) :
    byteAt (l1 ++ l2) i = byteAt l1 i :=
  List.getD_append _ _ _ _ h

theorem byteAt_append_right {l1 l2 : List Nat} {i : Nat}
    (h : l1.length ≤ i) : byteAt (l1 ++ l2) i = byteAt l2 (i - l1.length) :=
  List.getD_append_right _ _ _ _ h

theorem byteAt_out {l : List Nat} {i : Nat} (h : l.length ≤ i) :
    byteAt l i = 0 :=
  List.getD_eq_default _ _ h

theorem byteAt_take {l : List Nat} {n i : Nat} (h : i < n) :
    byteAt (l.take n) i = byteAt l i := by
  simp only [byteAt, List.getD_eq_getElem?_getD, List.getElem?_take,
    if_pos h]

theorem byteAt_drop (l : List Nat) (n i : Nat) :
    byteAt (l.drop n) i = byteAt l (n + i) := by
  simp only [byteAt, List.getD_eq_getElem?_getD, List.getElem?_drop]

theorem byteAt_replicate (n i : Nat) : byteAt (List.replicate n 0) i = 0 := by
  simp [byteAt, List.getD_eq_getElem?_getD]

theorem writeBytes_length {mem data : List Nat} {start : Nat}
    (h : start + data.length ≤ mem.length) :
    (writeBytes mem start data).length = mem.length := by
  simp only [writeBytes, List.length_append, List.length_take,
    List.length_drop]
  omega

theorem take_length_eq {mem : List Nat} {start : Nat}
    (h : start ≤ mem.length) : (mem.take start).length = start := by
  simp only [List.length_take]
  omega

theorem byteAt_writeBytes_lt {mem data : List Nat} {start i : Nat}
    (hin : start + data.length ≤ mem.length) (h : i < start) :
    byteAt (writeBytes mem start data) i = byteAt mem i := by
  have ht : (mem.take start).length = start := take_length_eq (by omega)
  unfold writeBytes
  rw [byteAt_append_left (by simp only [List.length_append, ht]; omega),
    byteAt_append_left (by rw [ht]; exact h), byteAt_take h]

theorem byteAt_writeBytes_ge {mem data : List Nat} {start i : Nat}
    (hin : start + data.length ≤ mem.length)
    (h : start + data.length ≤ i) :
    byteAt (writeBytes mem start data) i = byteAt mem i := by
  have ht : (mem.take start).length = start := take_length_eq (by omega)
  unfold writeBytes
  rw [byteAt_append_right (by simp only [List.length_append, ht]; omega),
    byteAt_drop]
  congr 1
  simp only [List.length_append, ht]
  omega

theorem byteAt_writeBytes_mid {mem data : List Nat} {start j : Nat}
    (hin : start + data.length ≤ mem.length) (hj : j < data.length) :
    byteAt (writeBytes mem start data) (start + j) = byteAt data j := by
  have ht : (mem.take start).length = start := take_length_eq (by omega)
  unfold writeBytes
  rw [byteAt_append_left (by simp only [List.length_append, ht]; omega),
    byteAt_append_right (by rw [ht]; omega)]
  congr 1
  rw [ht]
  omega

theorem resizeTo_length (mem : List Nat) (n : Nat) :
    (resizeTo mem n).length = max mem.length n := by
  unfold resizeTo
  split
  · simp only [List.length_append, List.length_replicate]
    omega
  · omega

theorem byteAt_resizeTo (mem : List Nat) (n i : Nat) :
    byteAt (resizeTo mem n) i = byteAt mem i := by
  unfold resizeTo
  split
  · by_cases h : i < mem.length
    · exact byteAt_append_left h
    · rw [byteAt_append_right (le_of_not_lt h), byteAt_replicate,
        byteAt_out (le_of_not_lt h)]
  · rfl

theorem segData_length {d : List Nat} {ph : ProgHeader}
    (hOk : SegOk d ph) :
    ((d.drop ph.p_offset).take ph.p_filesz).length = ph.p_filesz := by
  simp only [List.length_take, List.length_drop]
  rcases hOk with ⟨_, _, _, h4⟩
  omega

theorem loadSegmentCore_inbounds {d mem : List Nat} {ph : ProgHeader}
    (hOk : SegOk d ph) :
    segStart ph + ((d.drop ph.p_offset).take ph.p_filesz).length ≤
      (resizeTo mem (segStart ph + ph.p_memsz)).length := by
  rw [segData_length hOk, resizeTo_length]
  rcases hOk with ⟨_, _, h3, _⟩
  omega

theorem byteAt_loadSegmentCore_out {d mem : List Nat} {ph : ProgHeader}
    (hOk : SegOk d ph) (i : Nat)
    (h : i < segStart ph ∨ segStart ph + ph.p_memsz ≤ i) :
    byteAt (loadSegmentCore d mem ph) i = byteAt mem i := by
  rcases h with h | h
  · exact (byteAt_writeBytes_lt (loadSegmentCore_inbounds hOk) h).trans
      (byteAt_resizeTo mem _ i)
  · have hle : segStart ph +
        ((d.drop ph.p_offset).take ph.p_filesz).length ≤ i := by
      rw [segData_length hOk]
      rcases hOk with ⟨_, _, h3, _⟩
      omega
    exact (byteAt_writeBytes_ge (loadSegmentCore_inbounds hOk) hle).trans
      (byteAt_resizeTo mem _ i)

theorem byteAt_loadSegmentCore_data {d mem : List Nat} {ph : ProgHeader}
    (hOk : SegOk d ph) (j : Nat) (hj : j < ph.p_filesz) :
    byteAt (loadSegmentCore d mem ph) (segStart ph + j) =
      byteAt d (ph.p_offset + j) := by
  have h1 := byteAt_writeBytes_mid
    (@loadSegmentCore_inbounds d mem ph hOk)
    (j := j) (by rw [segData_length hOk]; exact hj)
  have h2 : byteAt ((d.drop ph.p_offset).take ph.p_filesz) j =
      byteAt d (ph.p_offset + j) := by
    rw [byteAt_take hj, byteAt_drop]
  exact h1.trans h2

theorem byteAt_loadSegmentCore_tail {d mem : List Nat} {ph : ProgHeader}
    (hOk : SegOk d ph) (j : Nat) (hj : ph.p_filesz ≤ j) :
    byteAt (loadSegmentCore d mem ph) (segStart ph + j) =
      byteAt mem (segStart ph + j) := by
  have hle : segStart ph +
      ((d.drop ph.p_offset).take ph.p_filesz).length ≤ segStart ph + j := by
    rw [segData_length hOk]
    omega
  exact (byteAt_writeBytes_ge (loadSegmentCore_inbounds hOk) hle).trans
    (byteAt_resizeTo mem _ _)

/-- Loading a list of well-formed, pairwise-disjoint segments succeeds, sets
each loadable segment region from the file bytes, leaves the part of each
region beyond the file-backed size as it was in the initial buffer, and does
not touch positions outside every loadable region. -/
theorem load_sections_readback (d : List Nat) (phs : List ProgHeader) :
    ∀ mem : List Nat,
      (∀ ph ∈ phs, ph.p_type = PT_LOAD → SegOk d ph) →
      List.Pairwise DisjLoad phs →
      ∃ m, load_sections d mem phs = some m ∧
        (∀ i, (∀ ph ∈ phs, ph.p_type = PT_LOAD →
            i < segStart ph ∨ segStart ph + ph.p_memsz ≤ i) →
          byteAt m i = byteAt mem i) ∧
        (∀ ph ∈ phs, ph.p_type = PT_LOAD →
          (∀ j, j < ph.p_filesz →
            byteAt m (segStart ph + j) = byteAt d (ph.p_offset + j)) ∧
          (∀ j, ph.p_filesz ≤ j → j < ph.p_memsz →
            byteAt m (segStart ph + j) = byteAt mem (segStart ph + j))) := by
  induction phs with
  | nil =>
    intro mem _ _
    exact ⟨mem, rfl, fun i _ => rfl,
      fun ph hmem => absurd hmem (List.not_mem_nil ph)⟩
  | cons ph t ih =>
    intro mem hgood hpw
    have hgood_t : ∀ ph1 ∈ t, ph1.p_type = PT_LOAD → SegOk d ph1 :=
      fun ph1 h1 => hgood ph1 (List.mem_cons_of_mem _ h1)
    obtain ⟨hph_t, hpw_t⟩ := List.pairwise_cons.mp hpw
    by_cases hload : ph.p_type = PT_LOAD
    · have hOk := hgood ph (List.mem_cons_self _ _) hload
      obtain ⟨m, hm, hframe, hsegs⟩ :=
        ih (loadSegmentCore d mem ph) hgood_t hpw_t
      refine ⟨m, ?_, ?_, ?_⟩
      · unfold load_sections
        rw [List.foldl_cons]
        have hstep : loadSectionsStep d (some mem) ph =
            some (loadSegmentCore d mem ph) := by
          simp only [loadSectionsStep]
          rw [if_pos hload, if_pos ⟨hOk.1, hOk.2.1⟩]
        rw [hstep]
        unfold load_sections at hm
        exact hm
      · intro i hi
        rw [hframe i (fun ph1 h1 hl1 => hi ph1 (List.mem_cons_of_mem _ h1)
          hl1)]
        exact byteAt_loadSegmentCore_out hOk i
          (hi ph (List.mem_cons_self _ _) hload)
      · intro ph1 hmem1 hload1
        rcases List.mem_cons.mp hmem1 with rfl | hmem1
        · have hfm : ph1.p_filesz ≤ ph1.p_memsz := hOk.2.2.1
          have havoid : ∀ j, j < ph1.p_memsz →
              ∀ ph2 ∈ t, ph2.p_type = PT_LOAD →
              segStart ph1 + j < segStart ph2 ∨
                segStart ph2 + ph2.p_memsz ≤ segStart ph1 + j := by
            intro j hj ph2 h2 hl2
            rcases hph_t ph2 h2 hload1 hl2 with hd | hd
            · left; omega
            · right; omega
          constructor
          · intro j hj
            rw [hframe _ (havoid j (by omega))]
            exact byteAt_loadSegmentCore_data hOk j hj
          · intro j hj1 hj2
            rw [hframe _ (havoid j hj2)]
            exact byteAt_loadSegmentCore_tail hOk j hj1
        · have hres := hsegs ph1 hmem1 hload1
          refine ⟨hres.1, ?_⟩
          intro j hj1 hj2
          rw [hres.2 j hj1 hj2]
          apply byteAt_loadSegmentCore_out hOk
          rcases hph_t ph1 hmem1 hload hload1 with hd | hd
          · right; omega
          · left; omega
    · obtain ⟨m, hm, hframe, hsegs⟩ := ih mem hgood_t hpw_t
      refine ⟨m, ?_, ?_, ?_⟩
      · unfold load_sections
        rw [List.foldl_cons]
        have hstep : loadSectionsStep d (some mem) ph = some mem := by
          simp only [loadSectionsStep]
          rw [if_neg hload]
        rw [hstep]
        unfold load_sections at hm
        exact hm
      · intro i hi
        exact hframe i (fun ph1 h1 hl1 =>
          hi ph1 (List.mem_cons_of_mem _ h1) hl1)
      · intro ph1 hmem1 hload1
        rcases List.mem_cons.mp hmem1 with rfl | hmem1
        · exact absurd hload1 hload
        · exact hsegs ph1 hmem1 hload1

/-- In the freshly initialized loader buffer, everything beyond the 8-byte
length prefix and the calldata bytes is zero. -/
theorem calldata_buffer_zero {call_data : List Nat} {i : Nat}
    (hcd : call_data.length < 1024 * 1024 - 8)
    (hi : 8 + call_data.length ≤ i) :
    byteAt (writeBytes (writeBytes (List.replicate (1024 * 1024) 0) 0
      (toLe8 call_data.length)) 8 call_data) i = 0 := by
  have hlen8 : (toLe8 call_data.length).length = 8 := rfl
  have hinner : (0 : Nat) + (toLe8 call_data.length).length ≤
      (List.replicate (1024 * 1024) (0 : Nat)).length := by
    rw [hlen8, List.length_replicate]
    norm_num
  have hinnerlen : (writeBytes (List.replicate (1024 * 1024) 0) 0
      (toLe8 call_data.length)).length = 1024 * 1024 := by
    rw [writeBytes_length hinner, List.length_replicate]
  have houter : 8 + call_data.length ≤ (writeBytes
      (List.replicate (1024 * 1024) 0) 0 (toLe8 call_data.length)).length :=
    by rw [hinnerlen]; omega
  rw [byteAt_writeBytes_ge houter hi,
    byteAt_writeBytes_ge hinner (by rw [hlen8]; omega),
    byteAt_replicate]

/-- Claim C3 (amended): for an ELF whose loadable segments are within the
DRAM bounds, carry their file-backed bytes inside the file and inside their
in-memory size, occupy pairwise disjoint buffer regions, and lie beyond the
calldata prefix region, loading succeeds and reading back each loadable
segment region yields byte-for-byte its file-backed bytes followed by zeros
for the memsz - filesz tail. -/
theorem elf_load_readback (elf : Elf) (elf_data call_data : List Nat)
    (hcd : call_data.length < 1024 * 1024 - 8)
    (hgood : ∀ ph ∈ elf.programHeaders, ph.p_type = PT_LOAD →
      SegOk elf_data ph)
    (hpw : List.Pairwise DisjLoad elf.programHeaders)
    (hcal : ∀ ph ∈ elf.programHeaders, ph.p_type = PT_LOAD →
      8 + call_data.length ≤ segStart ph) :
    ∃ mem, setup_from_elf elf elf_data call_data = .ok mem elf.e_entry ∧
      ∀ ph ∈ elf.programHeaders, ph.p_type = PT_LOAD →
        (∀ j, j < ph.p_filesz →
          byteAt mem (segStart ph + j) = byteAt elf_data (ph.p_offset + j)) ∧
        (∀ j, ph.p_filesz ≤ j → j < ph.p_memsz →
          byteAt mem (segStart ph + j) = 0) := by
  obtain ⟨m, hm, hframe, hsegs⟩ := load_sections_readback elf_data
    elf.programHeaders
    (writeBytes (writeBytes (List.replicate (1024 * 1024) 0) 0
      (toLe8 call_data.length)) 8 call_data) hgood hpw
  refine ⟨m, ?_, ?_⟩
  · unfold setup_from_elf
    rw [if_pos hcd, hm]
    exact optionElim_some _ _ _
  · intro ph hmem hload
    refine ⟨(hsegs ph hmem hload).1, ?_⟩
    intro j hj1 hj2
    rw [(hsegs ph hmem hload).2 j hj1 hj2]
    exact calldata_buffer_zero hcd (by have := hcal ph hmem hload; omega)

/-- Witness for elf_load_readback: a one-byte segment with a one-byte zero
tail loaded from the file [0xAB]. -/
theorem elf_load_readback_witness :
    ∃ mem, setup_from_elf elfW [0xAB] [] = .ok mem elfW.e_entry ∧
      ∀ ph ∈ elfW.programHeaders, ph.p_type = PT_LOAD →
        (∀ j, j < ph.p_filesz →
          byteAt mem (segStart ph + j) = byteAt [0xAB] (ph.p_offset + j)) ∧
        (∀ j, ph.p_filesz ≤ j → j < ph.p_memsz →
          byteAt mem (segStart ph + j) = 0) :=
  elf_load_readback elfW [0xAB] [] (by norm_num)
    (by
      intro ph hmem _
      simp only [elfW, List.mem_singleton] at hmem
      subst hmem
      exact ⟨by norm_num [phW, DRAM_BASE], by norm_num [phW, DRAM_SIZE],
        by norm_num [phW], by norm_num [phW]⟩)
    (by simp [elfW])
    (by
      intro ph hmem _
      simp only [elfW, List.mem_singleton] at hmem
      subst hmem
      norm_num [segStart, phW, DRAM_BASE])

/-- Counterexample to claim C3 as stated: a loadable segment placed at
DRAM_BASE with filesz 0 and memsz 1, loaded with calldata [1], reads back 1
(the first byte of the little-endian calldata length prefix) in its
memsz - filesz tail instead of the zero the claim promises. -/
theorem elf_readback_counterexample :
    setup_from_elf elfOverlap [] [1] =
        .ok memOverlap elfOverlap.e_entry ∧
      phOverlap.p_filesz ≤ 0 ∧ 0 < phOverlap.p_memsz ∧
      byteAt memOverlap (segStart phOverlap + 0) = 1 ∧ (1 : Nat) ≠ 0 := by
  have hOk : SegOk [] phOverlap :=
    ⟨by norm_num [phOverlap], by norm_num [phOverlap, DRAM_SIZE],
      by norm_num [phOverlap], by norm_num [phOverlap]⟩
  refine ⟨?_, by norm_num [phOverlap], by norm_num [phOverlap], ?_,
    by norm_num⟩
  · unfold setup_from_elf
    rw [if_pos (by norm_num)]
    have hstep : loadSectionsStep [] (some
        (writeBytes (writeBytes (List.replicate (1024 * 1024) 0) 0
          (toLe8 (List.length [1]))) 8 [1])) phOverlap =
        some memOverlap := by
      simp only [loadSectionsStep, memOverlap]
      rw [if_pos (show phOverlap.p_type = PT_LOAD from rfl),
        if_pos ⟨hOk.1, hOk.2.1⟩]
    have hls : load_sections []
        (writeBytes (writeBytes (List.replicate (1024 * 1024) 0) 0
          (toLe8 (List.length [1]))) 8 [1]) elfOverlap.programHeaders =
        some memOverlap := by
      unfold load_sections
      show List.foldl _ _ [phOverlap] = _
      rw [List.foldl_cons, hstep]
      rfl
    rw [hls]
    exact optionElim_some _ _ _
  · have htail := @byteAt_loadSegmentCore_tail []
      (writeBytes (writeBytes (List.replicate (1024 * 1024) 0) 0
        (toLe8 (List.length [1]))) 8 [1]) phOverlap
      hOk 0 (by norm_num [phOverlap])
    unfold memOverlap
    rw [htail]
    have hinner : (0 : Nat) + (toLe8 (List.length [1])).length ≤
        (List.replicate (1024 * 1024) (0 : Nat)).length := by
      norm_num [toLe8]
    have houter : (8 : Nat) + (List.length [1]) ≤
        (writeBytes (List.replicate (1024 * 1024) 0) 0
          (toLe8 (List.length [1]))).length := by
      rw [writeBytes_length hinner, List.length_replicate]
      norm_num
    have hidx : segStart phOverlap + 0 = 0 := by
      norm_num [segStart, phOverlap]
    rw [hidx]
    rw [byteAt_writeBytes_lt houter (by norm_num)]
    have hmid := byteAt_writeBytes_mid (j := 0) hinner (by norm_num [toLe8])
    rw [show (0 : Nat) + 0 = 0 from rfl] at hmid
    rw [hmid]
    rfl

/-- Witness for address_pack_unpack at a 20-byte sample address. -/
theorem address_pack_unpack_witness :
    msg_sender (packAddress addrFix) = addrFix ∧
      dispatchSyscall .Caller ⟨zeroRegs, [], []⟩ itpFix hostFix =
        .cont
          { regs := writeReg
              (writeReg (writeReg zeroRegs 10 (packAddress itpFix.callerAddr).1)
                11 (packAddress itpFix.callerAddr).2.1)
              12 (packAddress itpFix.callerAddr).2.2
            dram := []
            instCounter := [] }
          itpFix :=
  ⟨address_pack_unpack.1 addrFix rfl (by decide),
    address_pack_unpack.2 ⟨zeroRegs, [], []⟩ itpFix hostFix⟩

end R55
